import Mathlib

set_option maxRecDepth 10000

/-!
# Verification of the ObsidianCortex hybrid retrieval engine and orchestrator

Shallow embedding of the RAG core of the ObsidianCortex repository:

* the `VectorStore` family (chunking, hybrid score fusion, bindings,
  persistence) as embedded in `src/types.ts`,
* the embedding fallback chain of `src/services/VectorStore.ts`
  (`part_003`), and
* the agent loop and citation postprocessing of
  `src/services/Orchestrator.ts`.

JavaScript numbers are modelled as `ℚ` where the source only adds,
multiplies and divides (search scores), and as `ℝ` where the source takes
square roots (`Math.hypot` in the embedding normalisation).  JavaScript
`Map` objects are modelled as insertion-ordered association lists with
`jsMapGet` / `jsMapSet` / `jsMapDelete` mirroring `get` / `set` / `delete`.
`JSON.stringify`/`JSON.parse` round-tripping of the persisted payload is
modelled at the level of the structured payload (the JSON value), which the
string serialisation preserves for this shape of data.
-/

namespace ObsidianCortex

/-! ## JavaScript string and array primitives -/

/-- JavaScript `\s` character class restricted to the code points that can
appear here (space, tab, CR, LF, vertical tab, form feed, NBSP). -/
def jsIsSpace (c : Char) : Bool :=
  c == ' ' || c == '\t' || c == '\n' || c == '\x0d' ||
    c == Char.ofNat 11 || c == Char.ofNat 12 || c == Char.ofNat 160

/-- ASCII branch of JavaScript `toLowerCase`; non-ASCII letters are erased by
the `[^a-z0-9\s]` replacement directly afterwards, so the ASCII branch is
exact for `tokenize`. -/
def jsToLower (c : Char) : Char :=
  if 'A' ≤ c ∧ c ≤ 'Z' then Char.ofNat (c.toNat + 32) else c

/-- `[a-z0-9]` test used by `tokenize`. -/
def isLowerAlnum (c : Char) : Bool :=
  ('a' ≤ c && c ≤ 'z') || ('0' ≤ c && c ≤ '9')

/-- JavaScript `String.prototype.trim`. -/
def jsTrim (s : String) : String :=
  String.mk (((s.toList.dropWhile jsIsSpace).reverse.dropWhile jsIsSpace).reverse)

/-- Helper of `splitLines`: a `\r\n` pair or a lone `\n` separates lines; a
lone `\r` does not. -/
def splitLinesAux : List Char → List Char → List String
  | [], cur => [String.mk cur.reverse]
  | '\x0d' :: '\n' :: rest, cur => String.mk cur.reverse :: splitLinesAux rest []
  | '\n' :: rest, cur => String.mk cur.reverse :: splitLinesAux rest []
  | c :: rest, cur => splitLinesAux rest (c :: cur)

/-- `content.split(/\r?\n/)`. -/
def splitLines (s : String) : List String :=
  splitLinesAux s.toList []

/-- Helper of `splitOnSpaces`: accumulates the current (reversed) word. -/
def splitOnSpacesAux : List Char → List Char → List String
  | [], cur => if cur.isEmpty then [] else [String.mk cur.reverse]
  | c :: rest, cur =>
    if jsIsSpace c then
      if cur.isEmpty then splitOnSpacesAux rest []
      else String.mk cur.reverse :: splitOnSpacesAux rest []
    else splitOnSpacesAux rest (c :: cur)

/-- `.split(/\s+/).filter(Boolean)`. -/
def splitOnSpaces (cs : List Char) : List String :=
  splitOnSpacesAux cs []

/-- `tokenize` shared by both `VectorStore` variants:
`text.toLowerCase().replace(/[^a-z0-9\s]/g, ' ').split(/\s+/).filter(Boolean)`. -/
def tokenize (text : String) : List String :=
  splitOnSpaces ((text.toList.map jsToLower).map
    (fun c => if isLowerAlnum c || jsIsSpace c then c else ' '))

/-- Whether `pat` occurs at the head of `cs`. -/
def listPrefixEq : List Char → List Char → Bool
  | [], _ => true
  | _ :: _, [] => false
  | p :: ps, c :: cs => p == c && listPrefixEq ps cs

/-- Helper of `containsSub`: match the pattern at every suffix. -/
def containsSubAux (pat : List Char) : List Char → Bool
  | [] => listPrefixEq pat []
  | c :: cs => listPrefixEq pat (c :: cs) || containsSubAux pat cs

/-- JavaScript `String.prototype.includes`. -/
def containsSub (s pat : String) : Bool :=
  containsSubAux pat.toList s.toList

/-- `filePath.split('/').pop() ?? filePath`. -/
def lastPathSegment (p : String) : String :=
  match (p.splitOn "/").getLast? with
  | some s => s
  | none => p

/-- JavaScript `Array.prototype.slice(start, stop)` with index clamping and
negative-index wrap-around. -/
def jsSlice {α : Type} (l : List α) (start stop : Int) : List α :=
  let len : Int := l.length
  let s := if start < 0 then max 0 (len + start) else min start len
  let e := if stop < 0 then max 0 (len + stop) else min stop len
  (l.drop s.toNat).take (e.toNat - s.toNat)

/-! ## JavaScript `Map` as an insertion-ordered association list -/

/-- `Map.prototype.get`. -/
def jsMapGet {α : Type} (m : List (String × α)) (k : String) : Option α :=
  match m.find? (fun p => p.1 == k) with
  | some p => some p.2
  | none => none

/-- `Map.prototype.set`: overwrites in place when the key is present,
appends otherwise. -/
def jsMapSet {α : Type} (m : List (String × α)) (k : String) (v : α) :
    List (String × α) :=
  if m.any (fun p => p.1 == k) then
    m.map (fun p => if p.1 == k then (k, v) else p)
  else
    m ++ [(k, v)]

/-- `Map.prototype.delete`. -/
def jsMapDelete {α : Type} (m : List (String × α)) (k : String) :
    List (String × α) :=
  m.filter (fun p => !(p.1 == k))

/-! ## 32-bit rolling hash and block identifiers (`src/types.ts`) -/

/-- `|0`: wrap an exact integer to a signed 32-bit value. -/
def wrap32 (x : Int) : Int :=
  (x + 2 ^ 31) % 2 ^ 32 - 2 ^ 31

/-- Hexadecimal digit characters. -/
def hexDigit (d : Nat) : Char :=
  "0123456789abcdef".toList.getD d '0'

/-- Digits of `n` in base 16, most significant first (`fuel ≥ n` suffices). -/
def natToHexDigits : Nat → Nat → List Char
  | 0, _ => []
  | fuel + 1, n =>
    if n = 0 then [] else natToHexDigits fuel (n / 16) ++ [hexDigit (n % 16)]

/-- `Number.prototype.toString(16)` for a natural number. -/
def natToHex (n : Nat) : String :=
  if n = 0 then "0" else String.mk (natToHexDigits n n)

/-- `hashString`: `hash = (hash << 5) - hash + charCodeAt(i); hash |= 0`
folded over the string, then `Math.abs(hash).toString(16)`. -/
def hashString (input : String) : String :=
  natToHex (input.toList.foldl
    (fun h c => wrap32 (31 * h + (c.toNat : Int))) 0).natAbs

/-- `createBlockId`: `block-` followed by the first eight hex digits of the
hash of `{filePath}-{header}-{index}`. -/
def createBlockId (filePath header : String) (index : Nat) : String :=
  "block-" ++ (hashString (filePath ++ "-" ++ header ++ "-" ++ toString index)).take 8

/-! ## `VectorStore` data model (`src/types.ts`) -/

/-- `RagOptions` of `src/types.ts`; scores and weights are modelled as `ℚ`. -/
structure RagOptions where
  chunkTokenTarget : Option Int := none
  chunkTokenOverlap : Option Int := none
  maxChunksPerFile : Option Int := none
  hybridWeights : Option (ℚ × ℚ) := none
  embeddingDimensions : Option Nat := none

/-- `IndexedChunk` of `src/types.ts`. -/
structure IndexedChunk where
  id : String
  content : String
  filePath : String
  blockId : String
  embedding : List ℝ
  keywords : List String

/-- A `{heading, body}` section of `splitByHeadings`. -/
structure MdSection where
  heading : String
  body : String

/-- Number of leading `#` characters of a line. -/
def countLeadingHashes (cs : List Char) : Nat :=
  (cs.takeWhile (fun c => c == '#')).length

/-- Whether a line matches `^(#{1,6})\s+(.*)`. -/
def isHeadingLine (line : String) : Bool :=
  let cs := line.toList
  let n := countLeadingHashes cs
  decide (1 ≤ n) && decide (n ≤ 6) &&
    (match cs.drop n with
     | [] => false
     | c :: _ => jsIsSpace c)

/-- `headingMatch[2]?.trim()`: the text after the hashes, trimmed (the `\s+`
run removed by the regex is subsumed by the trim). -/
def headingText (line : String) : String :=
  jsTrim (String.mk (line.toList.drop (countLeadingHashes line.toList)))

/-- Push the buffered section body if non-empty after trimming. -/
def pushSection (sections : List MdSection) (heading : String)
    (buffer : List String) : List MdSection :=
  let body := jsTrim (String.intercalate "\n" buffer)
  if body = "" then sections else sections ++ [⟨heading, body⟩]

/-- `splitByHeadings` of `src/types.ts`. -/
def splitByHeadings (content : String) : List MdSection :=
  let lines := splitLines content
  let st := lines.foldl
    (fun (st : List MdSection × String × List String) line =>
      let (sections, currentHeading, buffer) := st
      if isHeadingLine line then
        let t := headingText line
        (pushSection sections currentHeading buffer,
          (if t = "" then currentHeading else t), [])
      else
        (sections, currentHeading, buffer ++ [line]))
    ([], "Document", [])
  let sections := pushSection st.1 st.2.1 st.2.2
  if sections.isEmpty then [⟨"Document", content⟩] else sections

/-- `extractKeywords` / `simpleFrequencyEmbedding` token frequency map
(`freq.set(token, (freq.get(token) ?? 0) + 1)` over a `Map`). -/
def termFrequencies (tokens : List String) : List (String × Nat) :=
  tokens.foldl (fun m t => jsMapSet m t ((jsMapGet m t).getD 0 + 1)) []

/-- Stable descending insertion by count, matching the stable JavaScript
`sort((a, b) => b[1] - a[1])`. -/
def insertCountDesc (x : String × Nat) : List (String × Nat) → List (String × Nat)
  | [] => [x]
  | y :: ys => if y.2 < x.2 then x :: y :: ys else y :: insertCountDesc x ys

/-- Stable descending sort by count. -/
def sortCountDesc : List (String × Nat) → List (String × Nat)
  | [] => []
  | x :: xs => insertCountDesc x (sortCountDesc xs)

/-- `extractKeywords` of `src/types.ts`: top 20 tokens by frequency. -/
def extractKeywords (text : String) : List String :=
  ((sortCountDesc (termFrequencies (tokenize text))).take 20).map (·.1)

/-- Bump position `i` of a count vector (`vector[index] += 1`). -/
def bumpAt (v : List Nat) (i : Nat) : List Nat :=
  v.set i (v.getD i 0 + 1)

/-- Bucket of a token in `simpleHashEmbedding`:
`Math.abs(hashString(token).charCodeAt(0)) % dims`. -/
def hashBucket (dims : Nat) (token : String) : Nat :=
  ((hashString token).toList.headD '0').toNat % dims

/-- `simpleHashEmbedding` of `src/types.ts`: bucketed token counts divided by
`Math.hypot(...vector) || 1`. -/
noncomputable def simpleHashEmbedding (opts : RagOptions) (text : String) : List ℝ :=
  let dims := opts.embeddingDimensions.getD 256
  let counts := (tokenize text).foldl
    (fun v t => bumpAt v (hashBucket dims t)) (List.replicate dims 0)
  let sumSq : Nat := (counts.map (fun c => c * c)).sum
  let norm : ℝ := if sumSq = 0 then 1 else Real.sqrt (sumSq : ℝ)
  counts.map (fun c => (c : ℝ) / norm)

/-- `Math.max(1, chunkSize - chunkOverlap)`, the sliding-window stride. -/
def strideOf (chunkSize chunkOverlap : Int) : Int :=
  max 1 (chunkSize - chunkOverlap)

/-- The inner `while (cursor < tokens.length && chunks.length < maxChunks)`
window walk of `chunkMarkdown`, with explicit fuel.  Every iteration advances
the cursor by `(strideOf chunkSize chunkOverlap).toNat`.  Returns the chunk
accumulator and the running global chunk ordinal. -/
noncomputable def chunkWalk (opts : RagOptions) (chunkSize chunkOverlap maxChunks : Int)
    (filePath heading : String) (tokens : List String) :
    Nat → Nat → Nat → List IndexedChunk → List IndexedChunk × Nat
  | 0, _, globalIndex, acc => (acc, globalIndex)
  | fuel + 1, cursor, globalIndex, acc =>
    if cursor < tokens.length ∧ (acc.length : Int) < maxChunks then
      let slice := jsSlice tokens (cursor : Int) ((cursor : Int) + chunkSize)
      let text := String.intercalate " " slice
      let blockId := createBlockId filePath heading globalIndex
      let chunk : IndexedChunk :=
        { id := filePath ++ "::" ++ blockId
          content := text
          filePath := filePath
          blockId := blockId
          embedding := simpleHashEmbedding opts text
          keywords := extractKeywords text }
      chunkWalk opts chunkSize chunkOverlap maxChunks filePath heading tokens
        fuel (cursor + (strideOf chunkSize chunkOverlap).toNat) (globalIndex + 1)
        (acc ++ [chunk])
    else (acc, globalIndex)

/-- `chunkMarkdown` of `src/types.ts`: heading-aware sections, each walked by
the sliding window; fuel `tokens.length` suffices, since the stride is at
least one token per iteration. -/
noncomputable def chunkMarkdown (opts : RagOptions) (content filePath : String) :
    List IndexedChunk :=
  let chunkSize := opts.chunkTokenTarget.getD 240
  let chunkOverlap := opts.chunkTokenOverlap.getD 40
  let maxChunks := opts.maxChunksPerFile.getD 64
  ((splitByHeadings content).foldl
    (fun (st : List IndexedChunk × Nat) sec =>
      let tokens := tokenize sec.body
      chunkWalk opts chunkSize chunkOverlap maxChunks filePath sec.heading
        tokens tokens.length 0 st.2 st.1)
    ([], 0)).1

/-- Persisted snapshot shape:
`{ bindings: Array.from(bindings.entries()), chunks: Array.from(cachedChunks.values()) }`. -/
structure PersistPayload where
  bindings : List (String × List String)
  chunks : List IndexedChunk

/-- In-memory state of the `src/types.ts` `VectorStore`: the binding table,
the chunk cache, the fallback index (`db.chunks`, kept in lock-step with the
cache when Orama is unavailable) and the persisted snapshot resource. -/
structure StoreState where
  bindings : List (String × List String)
  cachedChunks : List (String × IndexedChunk)
  dbChunks : List (String × IndexedChunk)
  persisted : Option PersistPayload

/-- The empty store (fresh instance with no persisted snapshot). -/
def emptyStore : StoreState :=
  { bindings := [], cachedChunks := [], dbChunks := [], persisted := none }

/-- `persistIndex` payload. -/
def persistPayload (s : StoreState) : PersistPayload :=
  ⟨s.bindings, s.cachedChunks.map (·.2)⟩

/-- `persistIndex`: overwrite the snapshot resource with the serialized
current state. -/
def persistIndex (s : StoreState) : StoreState :=
  { s with persisted := some (persistPayload s) }

/-- `insertChunk` (fallback branch): cache and index the chunk by its id. -/
def insertChunk (s : StoreState) (chunk : IndexedChunk) : StoreState :=
  { s with
    cachedChunks := jsMapSet s.cachedChunks chunk.id chunk
    dbChunks := jsMapSet s.dbChunks chunk.id chunk }

/-- `removeBindings`: drop every chunk bound to `filePath`, then the binding. -/
def removeBindings (s : StoreState) (filePath : String) : StoreState :=
  match jsMapGet s.bindings filePath with
  | none => s
  | some ids =>
    { s with
      cachedChunks := ids.foldl (fun m id => jsMapDelete m id) s.cachedChunks
      dbChunks := ids.foldl (fun m id => jsMapDelete m id) s.dbChunks
      bindings := jsMapDelete s.bindings filePath }

/-- `removeFile`: `removeBindings` then `persistIndex`. -/
def removeFile (s : StoreState) (filePath : String) : StoreState :=
  persistIndex (removeBindings s filePath)

/-- `indexFile`: chunk the content, replace the file's chunks and binding,
then persist. -/
noncomputable def indexFile (opts : RagOptions) (s : StoreState)
    (filePath content : String) : StoreState :=
  let chunks := chunkMarkdown opts content filePath
  let s1 := removeBindings s filePath
  let s2 := chunks.foldl insertChunk s1
  persistIndex { s2 with
    bindings := jsMapSet s2.bindings filePath (chunks.map (·.id)) }

/-- Rewrite one cached chunk's `filePath` (the `{ ...chunk, filePath: newPath }`
spread). -/
def rewritePath (newPath : String) (c : IndexedChunk) : IndexedChunk :=
  { c with filePath := newPath }

/-- One iteration of the `renameFile` loop over a chunk id. -/
def renameChunkStep (newPath : String) (m : List (String × IndexedChunk))
    (id : String) : List (String × IndexedChunk) :=
  match jsMapGet m id with
  | none => m
  | some chunk => jsMapSet m id (rewritePath newPath chunk)

/-- `renameFile` of `src/types.ts`: no-op when the old path has no binding;
otherwise rewrite each bound chunk's path, move the binding to the new path,
and persist. -/
def renameFile (s : StoreState) (oldPath newPath : String) : StoreState :=
  match jsMapGet s.bindings oldPath with
  | none => s
  | some ids =>
    persistIndex
      { s with
        cachedChunks := ids.foldl (renameChunkStep newPath) s.cachedChunks
        dbChunks := ids.foldl (renameChunkStep newPath) s.dbChunks
        bindings := jsMapSet (jsMapDelete s.bindings oldPath) newPath ids }

/-- `restoreIndex` applied to a parsed payload on a fresh store:
`bindings = new Map(payload.bindings)` and every payload chunk cached and
indexed under its id. -/
def restoreFromPayload (p : PersistPayload) : StoreState :=
  { bindings := p.bindings.foldl (fun m pr => jsMapSet m pr.1 pr.2) []
    cachedChunks := p.chunks.foldl (fun m c => jsMapSet m c.id c) []
    dbChunks := p.chunks.foldl (fun m c => jsMapSet m c.id c) []
    persisted := some p }

/-- Chunk ids bound to a path (`bindings.get(path)`, `[]` when absent). -/
def bindingIds (s : StoreState) (path : String) : List String :=
  (jsMapGet s.bindings path).getD []

/-! ## Hybrid score fusion (`VectorStore.search` of `src/types.ts`)

`keywordSearch` and `vectorSearch` each return a candidate list sorted by
score descending (both backends end in `.sort((a, b) => b.score - a.score)`,
and the Orama path returns hits ranked by score); the fusion below is the
body of `search` from those candidate lists on. -/

/-- `VectorSearchResult` shape used by `search`. -/
structure VSResult where
  content : String
  filePath : String
  blockId : String
  score : ℚ
deriving DecidableEq

/-- `list.length ? list[0].score : 1` — the per-list normaliser (the head is
the maximum for the sorted candidate lists the backends produce). -/
def listMaxScore (l : List VSResult) : ℚ :=
  match l with
  | [] => 1
  | r :: _ => r.score

/-- `maxScore ? score / maxScore : 0`. -/
def normalizeBy (maxScore x : ℚ) : ℚ :=
  if maxScore = 0 then 0 else x / maxScore

/-- Keyword pass of the fusion: `combined.set(blockId, {...r, score: n * kw})`. -/
def fuseStep1 (kw maxB : ℚ) (m : List (String × VSResult)) (r : VSResult) :
    List (String × VSResult) :=
  jsMapSet m r.blockId { r with score := normalizeBy maxB r.score * kw }

/-- Vector pass of the fusion: add the weighted score onto an existing entry
with the same `blockId`, or insert a fresh one. -/
def fuseStep2 (vw maxV : ℚ) (m : List (String × VSResult)) (r : VSResult) :
    List (String × VSResult) :=
  let weighted := normalizeBy maxV r.score * vw
  match jsMapGet m r.blockId with
  | some existing => jsMapSet m r.blockId { existing with score := existing.score + weighted }
  | none => jsMapSet m r.blockId { r with score := weighted }

/-- The `combined` map of `search` after both passes. -/
def fuseCandidates (kw vw : ℚ) (bm25 vector : List VSResult) :
    List (String × VSResult) :=
  vector.foldl (fuseStep2 vw (listMaxScore vector))
    (bm25.foldl (fuseStep1 kw (listMaxScore bm25)) [])

/-- Fused score a block identifier receives from the combined map. -/
def fusedScoreOf (kw vw : ℚ) (bm25 vector : List VSResult) (b : String) :
    Option ℚ :=
  (jsMapGet (fuseCandidates kw vw bm25 vector) b).map (·.score)

/-- Insertion step of the stable descending sort by fused score. -/
def insertScoreDesc (x : VSResult) : List VSResult → List VSResult
  | [] => [x]
  | y :: ys => if y.score < x.score then x :: y :: ys else y :: insertScoreDesc x ys

/-- `.sort((a, b) => b.score - a.score)` on the combined values. -/
def sortScoreDesc : List VSResult → List VSResult
  | [] => []
  | x :: xs => insertScoreDesc x (sortScoreDesc xs)

/-- Fusion, ranking and truncation of `search` for given weights. -/
def searchFuse (kw vw : ℚ) (limit : Nat) (bm25 vector : List VSResult) :
    List VSResult :=
  (sortScoreDesc ((fuseCandidates kw vw bm25 vector).map (·.2))).take limit

/-- `this.options.hybridWeights?.keyword ?? 0.55`. -/
def keywordWeightOf (opts : RagOptions) : ℚ :=
  (opts.hybridWeights.map (·.1)).getD (11 / 20)

/-- `this.options.hybridWeights?.vector ?? 0.45`. -/
def vectorWeightOf (opts : RagOptions) : ℚ :=
  (opts.hybridWeights.map (·.2)).getD (9 / 20)

/-- `search` of `src/types.ts` from the two backend candidate lists on. -/
def search (opts : RagOptions) (limit : Nat) (bm25 vector : List VSResult) :
    List VSResult :=
  searchFuse (keywordWeightOf opts) (vectorWeightOf opts) limit bm25 vector

/-! ## Embedding fallback chain (`src/services/VectorStore.ts`, `part_003`) -/

/-- Outcome of the `fetch` call inside `embedWithOpenAI`: either the promise
rejected (caught and logged), or a response with its `ok` flag and the
optional `data[0].embedding` array of the parsed payload. -/
inductive FetchOutcome where
  | threw (message : String)
  | response (ok : Bool) (embeddingField : Option (List ℝ))

/-- Outcome of the local transformers backend for one call: the `pipeline`
global may be missing, loading or running may throw, or it yields data. -/
inductive TransformerOutcome where
  | unavailable
  | threwOnLoad (message : String)
  | threwOnRun (message : String)
  | output (data : List ℝ)

/-- Environment of one `embed` call: platform flag and the outcomes the two
remote/local backends would produce. -/
structure EmbedEnv where
  isMobile : Bool
  openaiKey : Option String
  openaiFetch : FetchOutcome
  transformers : TransformerOutcome

/-- `embedWithOpenAI`: `null` without a credential; any thrown error or
non-`ok` response is swallowed to `null`; otherwise the embedding array if
present. -/
def embedWithOpenAI (key : Option String) (fetch : FetchOutcome) :
    Option (List ℝ) :=
  match key with
  | none => none
  | some _ =>
    match fetch with
    | .threw _ => none
    | .response ok vec => if ok then vec else none

/-- `embedWithLocalTransformers` + `runTransformer`: every failure is
swallowed to `null`; an empty output vector is also `null`
(`vector.length ? vector : null`). -/
def embedWithLocalTransformers : TransformerOutcome → Option (List ℝ)
  | .unavailable => none
  | .threwOnLoad _ => none
  | .threwOnRun _ => none
  | .output data => if data.isEmpty then none else some data

/-- Ascending insertion for `Array.from(map.keys()).sort()` (keys are
distinct, so stability is immaterial). -/
def insertStrAsc (x : String) : List String → List String
  | [] => [x]
  | y :: ys => if x < y then x :: y :: ys else y :: insertStrAsc x ys

/-- Default JavaScript lexicographic sort of the vocabulary. -/
def sortStrings : List String → List String
  | [] => []
  | x :: xs => insertStrAsc x (sortStrings xs)

/-- `simpleFrequencyEmbedding`: token frequencies over the lexicographically
sorted vocabulary, divided by `Math.hypot(...vector) || 1`. -/
noncomputable def simpleFrequencyEmbedding (text : String) : List ℝ :=
  let frequencies := termFrequencies (tokenize text)
  let vocab := sortStrings (frequencies.map (·.1))
  let vector : List Nat := vocab.map (fun term => (jsMapGet frequencies term).getD 0)
  let sumSq : Nat := (vector.map (fun v => v * v)).sum
  let norm : ℝ := if sumSq = 0 then 1 else Real.sqrt (sumSq : ℝ)
  vector.map (fun v => (v : ℝ) / norm)

/-- `embed` of `src/services/VectorStore.ts`: trim; `[0]` for an empty trim;
then the platform-dependent backend chain, falling through to the
deterministic fallback. -/
noncomputable def embed (env : EmbedEnv) (text : String) : List ℝ :=
  let normalized := jsTrim text
  if normalized = "" then [0]
  else if env.isMobile then
    match embedWithOpenAI env.openaiKey env.openaiFetch with
    | some v => v
    | none => simpleFrequencyEmbedding normalized
  else
    match embedWithLocalTransformers env.transformers with
    | some v => v
    | none =>
      match embedWithOpenAI env.openaiKey env.openaiFetch with
      | some v => v
      | none => simpleFrequencyEmbedding normalized

/-- An environment in which both backends raise errors on every call. -/
def erroringEnv (mobile : Bool) (msg : String) : EmbedEnv :=
  { isMobile := mobile
    openaiKey := some "key"
    openaiFetch := .threw msg
    transformers := .threwOnLoad msg }

/-! ## Agent loop (`src/services/Orchestrator.ts`) -/

/-- `ISearchResult` fields consumed by the orchestrator. -/
structure ISearchResult where
  content : String
  filePath : String
  blockId : String
  score : ℚ
deriving DecidableEq

/-- A structured tool-call request; `arguments` holds the JSON serialisation
of the argument object (the orchestrator only ever re-serialises it). -/
structure IToolCall where
  name : String
  arguments : String
  id : String

/-- `ModelRouterResponse` fields consumed by the orchestrator; an absent
`toolCalls` array is the empty list. -/
structure ModelRouterResponse where
  text : String
  toolCalls : List IToolCall := []

/-- `IToolResult` fields consumed by the orchestrator. -/
structure IToolResult where
  name : String
  success : Bool
  output : String

/-- Role-tagged conversation message. -/
structure ILLMMessage where
  role : String
  content : String
  name : Option String := none
  tool_call_id : Option String := none

/-- External collaborators of one `run` invocation: the retrieved results and
the deterministic responses of the router (the tool-routing call indexed by
round) and the tool registry. -/
structure OrchestratorEnv where
  searchResults : List ISearchResult
  runToolCall : Nat → List ILLMMessage → ModelRouterResponse
  runTool : IToolCall → IToolResult
  runAssistant : String → String → List ILLMMessage → ModelRouterResponse
  runDeepResearch : String → String → List ILLMMessage → ModelRouterResponse

/-- `[[fileName#^blockId]]` citation marker of a result. -/
def citationMarker (r : ISearchResult) : String :=
  "[[" ++ lastPathSegment r.filePath ++ "#^" ++ r.blockId ++ "]]"

/-- `buildContext`: markers plus contents, double-newline separated. -/
def buildContext (results : List ISearchResult) : String :=
  String.intercalate "\n\n"
    (results.map (fun r => citationMarker r ++ "\n" ++ r.content))

/-- `applyCitations`: untouched for an empty result list or a text already
holding a wikilink marker; otherwise append a `Sources:` line with the first
five results' markers. -/
def applyCitations (text : String) (results : List ISearchResult) : String :=
  if results.isEmpty then text
  else
    let citations := String.intercalate " " ((results.take 5).map citationMarker)
    if containsSub text "[[" then text
    else text ++ "\n\nSources: " ++ citations

/-- `maxSteps` of the orchestrator. -/
def maxSteps : Nat := 4

/-- Messages appended for one executed tool call. -/
def toolCallMessages (env : OrchestratorEnv) (ms : List ILLMMessage)
    (call : IToolCall) : List ILLMMessage :=
  let result := env.runTool call
  ms ++
    [{ role := "assistant"
       content := "Action " ++ call.name ++ ": " ++ call.arguments
       tool_call_id := some call.id },
     { role := "tool", name := some call.name, content := result.output
       tool_call_id := some call.id }]

/-- The `for (let step = 0; step < maxSteps; step++)` loop: one tool-routing
call per round; a round with tool calls executes them sequentially, appends
the observations and a synthetic continue message.  Returns the final message
list and the number of rounds that executed tool calls. -/
def runLoop (env : OrchestratorEnv) :
    Nat → Nat → List ILLMMessage → List ILLMMessage × Nat
  | 0, _, messages => (messages, 0)
  | fuel + 1, callIdx, messages =>
    let toolDecision := env.runToolCall callIdx messages
    if toolDecision.toolCalls.isEmpty then (messages, 0)
    else
      let withObs := toolDecision.toolCalls.foldl (toolCallMessages env) messages
      let messages' := withObs ++
        [{ role := "user"
           content := "Continue and incorporate the new observations. Include citations if relevant." }]
      let res := runLoop env fuel (callIdx + 1) messages'
      (res.1, res.2 + 1)

/-- The system and user messages `run` starts from. -/
def initialMessages (env : OrchestratorEnv) (query : String) : List ILLMMessage :=
  let contextText := buildContext env.searchResults
  [{ role := "system"
     content := "You are Obsidian Cortex. Use ReAct: think, decide on a tool, observe results, and answer with concise steps. Always cite snippets using [[File#^block]] based on provided context. Only cite provided blockIds." },
   { role := "user"
     content := query ++ "\n\nContext:\n" ++
       (if contextText = "" then "No matching notes found." else contextText) }]

/-- Message list and executed tool-round count of the loop of `run`. -/
def runLoopResult (env : OrchestratorEnv) (query : String) :
    List ILLMMessage × Nat :=
  runLoop env maxSteps 0 (initialMessages env query)

/-- `Orchestrator.run`: retrieval context, bounded tool loop, assistant
response with deep-research fallback, citation postprocessing. -/
def run (env : OrchestratorEnv) (query : String) : String :=
  let contextText := buildContext env.searchResults
  let ms := (runLoopResult env query).1
  let assistantResponse := env.runAssistant query contextText ms
  if assistantResponse.text = "" then
    applyCitations (env.runDeepResearch query contextText ms).text env.searchResults
  else
    applyCitations assistantResponse.text env.searchResults

/-- Number of tool rounds `run` executes. -/
def runRounds (env : OrchestratorEnv) (query : String) : Nat :=
  (runLoopResult env query).2

/-! ## Concrete data used by counterexamples and witnesses

The paths `Aa` and `BB` collide under the 32-bit rolling hash
(`31 * 65 + 97 = 31 * 66 + 66`), so two chunks of two different files can
receive the same block identifier; with identical contents both backends
score them identically, which realises the duplicate-key candidate lists
below from an actual index state. -/

/-- Keyword candidates of two distinct chunks sharing one block id. -/
def collisionBm25 : List VSResult :=
  [⟨"hello world", "Aa", "block-13f96c35", 1⟩,
   ⟨"hello world", "BB", "block-13f96c35", 1⟩]

/-- Vector candidates of the same two chunks. -/
def collisionVector : List VSResult :=
  [⟨"hello world", "Aa", "block-13f96c35", 1⟩,
   ⟨"hello world", "BB", "block-13f96c35", 1⟩]

/-- Duplicate-free keyword candidates, sorted descending. -/
def fusionWitnessBm25 : List VSResult :=
  [⟨"alpha", "A.md", "block-a", 2⟩, ⟨"beta", "B.md", "block-b", 1⟩]

/-- Duplicate-free vector candidates. -/
def fusionWitnessVector : List VSResult :=
  [⟨"alpha", "A.md", "block-a", 1⟩]

/-- An orchestration environment whose tool router always requests one tool
call and whose responding models both return empty text over an empty index. -/
def emptyRespondEnv : OrchestratorEnv :=
  { searchResults := []
    runToolCall := fun _ _ =>
      { text := ""
        toolCalls := [{ name := "create_note", arguments := "note arguments", id := "call-1" }] }
    runTool := fun call => { name := call.name, success := true, output := "ok" }
    runAssistant := fun _ _ _ => { text := "" }
    runDeepResearch := fun _ _ _ => { text := "" } }

/-- Like `emptyRespondEnv`, but the assistant phase produces text. -/
def respondingEnv : OrchestratorEnv :=
  { searchResults := []
    runToolCall := fun _ _ =>
      { text := ""
        toolCalls := [{ name := "create_note", arguments := "note arguments", id := "call-1" }] }
    runTool := fun call => { name := call.name, success := true, output := "ok" }
    runAssistant := fun _ _ _ => { text := "All done." }
    runDeepResearch := fun _ _ _ => { text := "" } }

/-- A one-chunk store for the persistence round trip. -/
def roundTripChunk : IndexedChunk :=
  ⟨"notes/a.md::block-1", "hello world", "notes/a.md", "block-1", [], []⟩

/-- Its store state. -/
def roundTripStore : StoreState :=
  { bindings := [("notes/a.md", ["notes/a.md::block-1"])]
    cachedChunks := [("notes/a.md::block-1", roundTripChunk)]
    dbChunks := [("notes/a.md::block-1", roundTripChunk)]
    persisted := none }

/-- A one-chunk store for the rename scenario. -/
def renameChunk : IndexedChunk :=
  ⟨"old.md::block-1", "hello", "old.md", "block-1", [], []⟩

/-- Its store state. -/
def renameStore : StoreState :=
  { bindings := [("old.md", ["old.md::block-1"])]
    cachedChunks := [("old.md::block-1", renameChunk)]
    dbChunks := [("old.md::block-1", renameChunk)]
    persisted := none }

/-! ## Lemmas and claim theorems -/

theorem jsMapGet_nil {α : Type} (k : String) : jsMapGet ([] : List (String × α)) k = none := rfl

theorem jsMapGet_cons {α : Type} (p : String × α) (m : List (String × α)) (k : String) :
    jsMapGet (p :: m) k = if p.1 = k then some p.2 else jsMapGet m k := by
  by_cases h : p.1 = k
  · have hb : (p.1 == k) = true := by simp [h]
    simp [jsMapGet, List.find?, hb, h]
  · have hb : (p.1 == k) = false := by simp [h]
    simp [jsMapGet, List.find?, hb, h]

theorem jsMapSet_of_any {α : Type} (m : List (String × α)) (k : String) (v : α)
    (h : m.any (fun p => p.1 == k)) :
    jsMapSet m k v = m.map (fun p => if p.1 = k then (k, v) else p) := by
  simp only [jsMapSet, if_pos h]
  apply List.map_congr_left
  intro p _
  by_cases hp : p.1 = k
  · simp [hp]
  · simp [hp]

theorem jsMapSet_of_not_any {α : Type} (m : List (String × α)) (k : String) (v : α)
    (h : ¬ m.any (fun p => p.1 == k)) :
    jsMapSet m k v = m ++ [(k, v)] := by
  simp only [jsMapSet, if_neg h]

theorem jsMapGet_map_overwrite_self {α : Type} (m : List (String × α)) (k : String) (v : α)
    (h : m.any (fun p => p.1 == k)) :
    jsMapGet (m.map (fun p => if p.1 = k then (k, v) else p)) k = some v := by
  induction m with
  | nil => simp at h
  | cons q rest ih =>
    by_cases hq : q.1 = k
    · simp [hq, jsMapGet_cons]
    · have hr : rest.any (fun p => p.1 == k) := by
        simp only [List.any_cons, Bool.or_eq_true] at h
        rcases h with h1 | h2
        · exact absurd (by simpa using h1) hq
        · exact h2
      simp only [List.map_cons, if_neg hq]
      rw [jsMapGet_cons, if_neg hq]
      exact ih hr

theorem jsMapGet_append_single_self {α : Type} (m : List (String × α)) (k : String) (v : α)
    (h : ∀ p ∈ m, p.1 ≠ k) :
    jsMapGet (m ++ [(k, v)]) k = some v := by
  induction m with
  | nil => simp [jsMapGet_cons]
  | cons q rest ih =>
    rw [List.cons_append, jsMapGet_cons, if_neg (h q (by simp))]
    exact ih (fun p hp => h p (by simp [hp]))

theorem jsMapGet_set_self {α : Type} (m : List (String × α)) (k : String) (v : α) :
    jsMapGet (jsMapSet m k v) k = some v := by
  by_cases h : m.any (fun p => p.1 == k)
  · rw [jsMapSet_of_any m k v h]
    exact jsMapGet_map_overwrite_self m k v h
  · rw [jsMapSet_of_not_any m k v h]
    apply jsMapGet_append_single_self
    intro p hp hpk
    exact h (List.any_eq_true.mpr ⟨p, hp, by simp [hpk]⟩)

theorem jsMapGet_map_overwrite_ne {α : Type} (m : List (String × α)) (k k' : String) (v : α)
    (h : k' ≠ k) :
    jsMapGet (m.map (fun p => if p.1 = k then (k, v) else p)) k' = jsMapGet m k' := by
  induction m with
  | nil => rfl
  | cons q rest ih =>
    by_cases hq : q.1 = k
    · simp only [List.map_cons, if_pos hq]
      rw [jsMapGet_cons, jsMapGet_cons, if_neg (fun hh => h hh.symm), if_neg (by rw [hq]; exact fun hh => h hh.symm)]
      exact ih
    · simp only [List.map_cons, if_neg hq]
      rw [jsMapGet_cons, jsMapGet_cons]
      by_cases hq' : q.1 = k'
      · simp [hq']
      · rw [if_neg hq', if_neg hq']
        exact ih

theorem jsMapGet_append_single_ne {α : Type} (m : List (String × α)) (k k' : String) (v : α)
    (h : k' ≠ k) :
    jsMapGet (m ++ [(k, v)]) k' = jsMapGet m k' := by
  induction m with
  | nil => simp [jsMapGet_nil, jsMapGet_cons, Ne.symm h]
  | cons q rest ih =>
    rw [List.cons_append, jsMapGet_cons, jsMapGet_cons]
    by_cases hq : q.1 = k'
    · simp [hq]
    · rw [if_neg hq, if_neg hq]
      exact ih

theorem jsMapGet_set_ne {α : Type} (m : List (String × α)) (k k' : String) (v : α)
    (h : k' ≠ k) : jsMapGet (jsMapSet m k v) k' = jsMapGet m k' := by
  by_cases hany : m.any (fun p => p.1 == k)
  · rw [jsMapSet_of_any m k v hany]
    exact jsMapGet_map_overwrite_ne m k k' v h
  · rw [jsMapSet_of_not_any m k v hany]
    exact jsMapGet_append_single_ne m k k' v h

theorem jsMapGet_delete_self {α : Type} (m : List (String × α)) (k : String) :
    jsMapGet (jsMapDelete m k) k = none := by
  induction m with
  | nil => rfl
  | cons q rest ih =>
    by_cases hq : q.1 = k
    · simpa [jsMapDelete, List.filter, hq] using ih
    · have hb : (q.1 == k) = false := by simp [hq]
      simpa [jsMapDelete, List.filter, hb, jsMapGet_cons, hq] using ih

theorem jsMapGet_delete_ne {α : Type} (m : List (String × α)) (k k' : String)
    (h : k' ≠ k) : jsMapGet (jsMapDelete m k) k' = jsMapGet m k' := by
  induction m with
  | nil => rfl
  | cons q rest ih =>
    by_cases hq : q.1 = k
    · have hq' : q.1 ≠ k' := by rw [hq]; exact fun hh => h hh.symm
      simp only [jsMapDelete, List.filter] at ih ⊢
      have hb : (q.1 == k) = true := by simp [hq]
      rw [hb]
      simp only [Bool.not_true]
      rw [ih, jsMapGet_cons, if_neg hq']
    · have hb : (q.1 == k) = false := by simp [hq]
      simp only [jsMapDelete, List.filter] at ih ⊢
      rw [hb]
      simp only [Bool.not_false]
      rw [jsMapGet_cons, jsMapGet_cons, ih]

theorem jsMapGet_mem {α : Type} {m : List (String × α)} {k : String} {v : α}
    (h : jsMapGet m k = some v) : (k, v) ∈ m := by
  induction m with
  | nil => simp [jsMapGet_nil] at h
  | cons q rest ih =>
    rw [jsMapGet_cons] at h
    by_cases hq : q.1 = k
    · rw [if_pos hq] at h
      have : q = (k, v) := by
        cases q
        simp at hq h
        simp [hq, h]
      simp [this]
    · rw [if_neg hq] at h
      exact List.mem_cons_of_mem _ (ih h)

theorem mem_jsMapSet {α : Type} {m : List (String × α)} {k : String} {v : α}
    {p : String × α} (h : p ∈ jsMapSet m k v) : p = (k, v) ∨ p ∈ m := by
  by_cases hany : m.any (fun q => q.1 == k)
  · rw [jsMapSet_of_any m k v hany] at h
    rcases List.mem_map.mp h with ⟨q, hq, hqe⟩
    by_cases hqk : q.1 = k
    · left; rw [← hqe, if_pos hqk]
    · right; rw [← hqe, if_neg hqk]; exact hq
  · rw [jsMapSet_of_not_any m k v hany] at h
    rcases List.mem_append.mp h with h1 | h2
    · right; exact h1
    · left; simpa using h2



theorem foldl_delete_get {α : Type} (ids : List String) (m : List (String × α)) (k : String) :
    jsMapGet (ids.foldl (fun m i => jsMapDelete m i) m) k =
      if k ∈ ids then none else jsMapGet m k := by
  induction ids generalizing m with
  | nil => simp
  | cons i rest ih =>
    simp only [List.foldl_cons]
    rw [ih]
    by_cases hk : k ∈ rest
    · simp [hk]
    · by_cases hki : k = i
      · simp [hk, hki, jsMapGet_delete_self]
      · simp [hk, hki, jsMapGet_delete_ne m i k hki]

theorem rewritePath_idem (np : String) (c : IndexedChunk) :
    rewritePath np (rewritePath np c) = rewritePath np c := rfl

theorem renameChunkStep_get_self (np : String) (m : List (String × IndexedChunk)) (i : String) :
    jsMapGet (renameChunkStep np m i) i = (jsMapGet m i).map (rewritePath np) := by
  unfold renameChunkStep
  cases h : jsMapGet m i with
  | none => simp [h]
  | some c => simp [h, jsMapGet_set_self]

theorem renameChunkStep_get_ne (np : String) (m : List (String × IndexedChunk)) (i k : String)
    (h : k ≠ i) : jsMapGet (renameChunkStep np m i) k = jsMapGet m k := by
  unfold renameChunkStep
  cases hg : jsMapGet m i with
  | none => rfl
  | some c => simp [jsMapGet_set_ne _ _ _ _ h]

theorem foldl_rename_get_not_mem (np : String) (ids : List String)
    (m : List (String × IndexedChunk)) (k : String) (h : k ∉ ids) :
    jsMapGet (ids.foldl (renameChunkStep np) m) k = jsMapGet m k := by
  induction ids generalizing m with
  | nil => rfl
  | cons i rest ih =>
    simp only [List.foldl_cons]
    rw [ih _ (fun hk => h (List.mem_cons_of_mem _ hk)),
      renameChunkStep_get_ne np m i k (fun hk => h (by simp [hk]))]

theorem foldl_rename_get_mem (np : String) (ids : List String)
    (m : List (String × IndexedChunk)) (k : String) (h : k ∈ ids) :
    jsMapGet (ids.foldl (renameChunkStep np) m) k =
      (jsMapGet m k).map (rewritePath np) := by
  induction ids generalizing m with
  | nil => simp at h
  | cons i rest ih =>
    simp only [List.foldl_cons]
    by_cases hki : k = i
    · subst hki
      by_cases hkr : k ∈ rest
      · rw [ih _ hkr, renameChunkStep_get_self]
        cases jsMapGet m k <;> simp [rewritePath_idem]
      · rw [foldl_rename_get_not_mem np rest _ k hkr, renameChunkStep_get_self]
    · have hkr : k ∈ rest := by
        rcases List.mem_cons.mp h with h1 | h2
        · exact absurd h1 hki
        · exact h2
      rw [ih _ hkr, renameChunkStep_get_ne np m i k hki]

theorem jsMapSet_of_key_not_mem {α : Type} (m : List (String × α)) (k : String) (v : α)
    (h : k ∉ m.map (·.1)) : jsMapSet m k v = m ++ [(k, v)] := by
  apply jsMapSet_of_not_any
  intro hany
  rcases List.any_eq_true.mp hany with ⟨p, hp, hpk⟩
  exact h (List.mem_map.mpr ⟨p, hp, by simpa using hpk⟩)

theorem foldl_set_id {α : Type} (l acc : List (String × α))
    (h : ((acc ++ l).map (·.1)).Nodup) :
    l.foldl (fun m p => jsMapSet m p.1 p.2) acc = acc ++ l := by
  induction l generalizing acc with
  | nil => simp
  | cons p rest ih =>
    simp only [List.foldl_cons]
    have hnk : p.1 ∉ acc.map (·.1) := by
      intro hmem
      have := h
      rw [List.map_append, List.nodup_append] at this
      exact this.2.2 hmem (by simp)
    rw [jsMapSet_of_key_not_mem acc p.1 p.2 hnk]
    have h' : (((acc ++ [p]) ++ rest).map (·.1)).Nodup := by
      have : (acc ++ [p]) ++ rest = acc ++ p :: rest := by simp
      rw [this]
      exact h
    have := ih (acc ++ [p]) h'
    cases p
    simpa using this

theorem foldl_set_by_id {l : List (String × IndexedChunk)}
    (hid : ∀ p ∈ l, p.1 = p.2.id) (acc : List (String × IndexedChunk)) :
    (l.map (·.2)).foldl (fun m c => jsMapSet m c.id c) acc =
      l.foldl (fun m p => jsMapSet m p.1 p.2) acc := by
  induction l generalizing acc with
  | nil => rfl
  | cons p rest ih =>
    simp only [List.map_cons, List.foldl_cons]
    rw [hid p (by simp)]
    exact ih (fun q hq => hid q (by simp [hq])) _



theorem chunkWalk_id_shape (opts : RagOptions) (cs co mc : Int) (fp hd : String)
    (tokens : List String) :
    ∀ (fuel cursor gi : Nat) (acc : List IndexedChunk),
      (∀ c ∈ acc, ∃ b, c.id = fp ++ "::" ++ b) →
      ∀ c ∈ (chunkWalk opts cs co mc fp hd tokens fuel cursor gi acc).1,
        ∃ b, c.id = fp ++ "::" ++ b := by
  intro fuel
  induction fuel with
  | zero =>
    intro cursor gi acc hacc c hc
    exact hacc c hc
  | succ fuel ih =>
    intro cursor gi acc hacc c hc
    rw [chunkWalk] at hc
    split at hc
    · refine ih _ _ _ ?_ c hc
      intro d hd'
      rcases List.mem_append.mp hd' with h1 | h2
      · exact hacc d h1
      · refine ⟨createBlockId fp hd gi, ?_⟩
        simp at h2
        rw [h2]
    · exact hacc c hc

theorem chunkMarkdown_id_shape (opts : RagOptions) (content fp : String) :
    ∀ c ∈ chunkMarkdown opts content fp, ∃ b, c.id = fp ++ "::" ++ b := by
  unfold chunkMarkdown
  generalize splitByHeadings content = secs
  have main : ∀ (secs : List MdSection) (st : List IndexedChunk × Nat),
      (∀ c ∈ st.1, ∃ b, c.id = fp ++ "::" ++ b) →
      ∀ c ∈ (secs.foldl
        (fun (st : List IndexedChunk × Nat) sec =>
          let tokens := tokenize sec.body
          chunkWalk opts (opts.chunkTokenTarget.getD 240) (opts.chunkTokenOverlap.getD 40)
            (opts.maxChunksPerFile.getD 64) fp sec.heading tokens tokens.length 0 st.2 st.1)
        st).1, ∃ b, c.id = fp ++ "::" ++ b := by
    intro secs
    induction secs with
    | nil => intro st hst c hc; exact hst c hc
    | cons sec rest ih =>
      intro st hst c hc
      simp only [List.foldl_cons] at hc
      refine ih _ ?_ c hc
      intro d hd'
      exact chunkWalk_id_shape opts _ _ _ fp sec.heading _ _ _ _ _ hst d hd'
  intro c hc
  exact main secs ([], 0) (by simp) c hc

/-- C10: when the old path has no binding, `renameFile` returns before
touching the binding table, the chunk store, the fallback index or the
persisted snapshot — the entire store state is unchanged. -/
theorem c10_rename_unbound_noop (s : StoreState) (oldPath newPath : String)
    (h : jsMapGet s.bindings oldPath = none) :
    renameFile s oldPath newPath = s := by
  simp [renameFile, h]

/-- C6: for a path bound to a chunk-identifier list, `renameFile` (to a
distinct path) removes the old binding, binds the new path to exactly the
same identifier list in order, and rewrites each bound cached chunk to the
new path while preserving the rest of the chunk (identifier and content). -/
theorem c6_rename_rebinding (s : StoreState) (oldPath newPath : String) (ids : List String)
    (h1 : jsMapGet s.bindings oldPath = some ids) (h2 : oldPath ≠ newPath) :
    jsMapGet (renameFile s oldPath newPath).bindings oldPath = none ∧
    jsMapGet (renameFile s oldPath newPath).bindings newPath = some ids ∧
    ∀ id ∈ ids, jsMapGet (renameFile s oldPath newPath).cachedChunks id =
      (jsMapGet s.cachedChunks id).map (rewritePath newPath) := by
  simp only [renameFile, h1, persistIndex]
  refine ⟨?_, ?_, ?_⟩
  · rw [jsMapGet_set_ne _ _ _ _ h2, jsMapGet_delete_self]
  · exact jsMapGet_set_self _ _ _
  · intro id hid
    exact foldl_rename_get_mem newPath ids s.cachedChunks id hid

/-- C4: restoring the snapshot produced by persisting a store (whose maps
have unique keys and cache chunks under their own ids, as every reachable
state does) reconstructs the binding table and the chunk store exactly —
same identifiers, contents and path associations — for any non-empty index. -/
theorem c4_roundtrip_persistence (s : StoreState)
    (hbk : (s.bindings.map (·.1)).Nodup)
    (hck : (s.cachedChunks.map (·.1)).Nodup)
    (hid : ∀ p ∈ s.cachedChunks, p.1 = p.2.id)
    (_hne : s.bindings ≠ [] ∨ s.cachedChunks ≠ []) :
    (restoreFromPayload (persistPayload s)).bindings = s.bindings ∧
    (restoreFromPayload (persistPayload s)).cachedChunks = s.cachedChunks := by
  constructor
  · simp only [restoreFromPayload, persistPayload]
    simpa using foldl_set_id s.bindings [] (by simpa using hbk)
  · simp only [restoreFromPayload, persistPayload]
    rw [foldl_set_by_id hid]
    simpa using foldl_set_id s.cachedChunks [] (by simpa using hck)

/-- C5: after `indexFile` of a document followed by `removeFile` of its
path, no binding for the path remains and no chunk whose identifier was
listed in the document's binding remains in the chunk store; each such
identifier carries the document's path as a `path::` prefix. -/
theorem c5_binding_consistency (opts : RagOptions) (s : StoreState) (path content : String) :
    jsMapGet (removeFile (indexFile opts s path content) path).bindings path = none ∧
    ∀ id ∈ bindingIds (indexFile opts s path content) path,
      jsMapGet (removeFile (indexFile opts s path content) path).cachedChunks id = none ∧
      ∃ b, id = path ++ "::" ++ b := by
  have hbind : jsMapGet (indexFile opts s path content).bindings path =
      some ((chunkMarkdown opts content path).map (·.id)) := by
    simp only [indexFile, persistIndex]
    exact jsMapGet_set_self _ _ _
  have hids : bindingIds (indexFile opts s path content) path =
      (chunkMarkdown opts content path).map (·.id) := by
    simp [bindingIds, hbind]
  constructor
  · simp only [removeFile, persistIndex, removeBindings, hbind]
    exact jsMapGet_delete_self _ _
  · intro id hid
    rw [hids] at hid
    constructor
    · simp only [removeFile, persistIndex, removeBindings, hbind]
      rw [foldl_delete_get]
      simp [hid]
    · rcases List.mem_map.mp hid with ⟨c, hc, hcid⟩
      rcases chunkMarkdown_id_shape opts content path c hc with ⟨b, hb⟩
      exact ⟨b, by rw [← hcid, hb]⟩



theorem chunkWalk_fuel_congr (opts : RagOptions) (cs co mc : Int) (fp hd : String)
    (tokens : List String) :
    ∀ (f1 f2 cursor gi : Nat) (acc : List IndexedChunk),
      tokens.length ≤ cursor + f1 → tokens.length ≤ cursor + f2 →
      chunkWalk opts cs co mc fp hd tokens f1 cursor gi acc =
      chunkWalk opts cs co mc fp hd tokens f2 cursor gi acc := by
  intro f1
  induction f1 with
  | zero =>
    intro f2 cursor gi acc h1 h2
    cases f2 with
    | zero => rfl
    | succ f2 =>
      rw [chunkWalk, chunkWalk]
      rw [if_neg (fun hcon => absurd hcon.1 (by omega))]
  | succ f1 ih =>
    intro f2 cursor gi acc h1 h2
    cases f2 with
    | zero =>
      rw [chunkWalk, chunkWalk]
      rw [if_neg (fun hcon => absurd hcon.1 (by omega))]
    | succ f2 =>
      rw [chunkWalk, chunkWalk]
      by_cases hguard : cursor < tokens.length ∧ ((acc.length : Int) < mc)
      · rw [if_pos hguard, if_pos hguard]
        have hstride : 1 ≤ (strideOf cs co).toNat := by
          have h1' : (1 : Int) ≤ strideOf cs co := le_max_left _ _
          omega
        exact ih f2 _ _ _ (by omega) (by omega)
      · rw [if_neg hguard, if_neg hguard]

theorem runLoop_rounds_eq (env : OrchestratorEnv)
    (halways : ∀ i ms, (env.runToolCall i ms).toolCalls ≠ []) :
    ∀ (fuel callIdx : Nat) (messages : List ILLMMessage),
      (runLoop env fuel callIdx messages).2 = fuel := by
  intro fuel
  induction fuel with
  | zero => intro callIdx messages; rfl
  | succ fuel ih =>
    intro callIdx messages
    rw [runLoop]
    have : (env.runToolCall callIdx messages).toolCalls.isEmpty = false := by
      rcases h : (env.runToolCall callIdx messages).toolCalls with _ | ⟨c, cs⟩
      · exact absurd h (halways callIdx messages)
      · rfl
    simp only [this, Bool.false_eq_true, if_false, ih]

theorem containsSub_empty_left : containsSub "" "[[" = false := rfl

theorem applyCitations_ne_empty (text : String) (results : List ISearchResult)
    (h : text ≠ "" ∨ results ≠ []) : applyCitations text results ≠ "" := by
  unfold applyCitations
  by_cases hr : results.isEmpty
  · have hnil : results = [] := List.isEmpty_iff.mp hr
    rcases h with ht | hres
    · simpa [hr] using ht
    · exact absurd hnil hres
  · simp only [hr, Bool.false_eq_true, if_false]
    by_cases hm : containsSub text "[[" = true
    · have ht : text ≠ "" := by
        intro he
        rw [he, containsSub_empty_left] at hm
        exact Bool.false_ne_true hm
      simpa [hm] using ht
    · simp only [Bool.not_eq_true] at hm
      simp only [hm, Bool.false_eq_true, if_false]
      intro he
      have hlen := congrArg String.length he
      rw [String.length_append, String.length_append] at hlen
      have : String.length "\n\nSources: " = 11 := rfl
      simp [this] at hlen



/-- C3: for every chunk-token-target and token-overlap configuration —
including overlap at least the target — the stride `max 1 (target - overlap)`
is at least one, and the window walk needs at most `tokens.length - cursor`
iterations: any extra fuel leaves the result unchanged, so chunking any
finite document terminates in finitely many steps. -/
theorem c3_windowing_progress :
    ∀ (target overlap : Int), 1 ≤ strideOf target overlap ∧
      ∀ (opts : RagOptions) (mc : Int) (fp hd : String) (tokens : List String)
        (cursor gi extra : Nat) (acc : List IndexedChunk),
        chunkWalk opts target overlap mc fp hd tokens (tokens.length - cursor + extra)
          cursor gi acc =
        chunkWalk opts target overlap mc fp hd tokens (tokens.length - cursor)
          cursor gi acc := by
  intro target overlap
  constructor
  · exact le_max_left _ _
  · intro opts mc fp hd tokens cursor gi extra acc
    exact chunkWalk_fuel_congr opts target overlap mc fp hd tokens _ _ cursor gi acc
      (by omega) (by omega)

/-- C9: with an empty retrieved-result list, `applyCitations` returns every
text completely unchanged — no `Sources:` line is synthesised even for a
text without a citation marker. -/
theorem c9_empty_results_identity : ∀ text : String, applyCitations text [] = text := by
  intro text
  rfl

/-- C8 (amended): a text already containing a wikilink citation marker is
returned unchanged; a markerless text gets the synthesised `Sources:` line
with the first five retrieved results' markers, provided at least one result
was retrieved. -/
theorem c8_citation_postprocessing : ∀ (text : String) (results : List ISearchResult),
    (containsSub text "[[" = true → applyCitations text results = text) ∧
    (containsSub text "[[" = false → results ≠ [] →
      applyCitations text results =
        text ++ "\n\nSources: " ++
          String.intercalate " " ((results.take 5).map citationMarker)) := by
  intro text results
  constructor
  · intro hm
    unfold applyCitations
    by_cases hr : results.isEmpty <;> simp [hr, hm]
  · intro hm hres
    have hr : results.isEmpty = false := by
      rcases results with _ | ⟨r, rs⟩
      · exact absurd rfl hres
      · rfl
    unfold applyCitations
    simp [hr, hm]

/-- Counterexample for C8 as stated: a markerless text with an empty
retrieved-result list is returned unchanged, with no `Sources:` line
appended. -/
theorem c8_citation_postprocessing_counterexample :
    containsSub "The vault is empty." "[[" = false ∧
    applyCitations "The vault is empty." [] = "The vault is empty." := by
  exact ⟨rfl, rfl⟩

/-- C7 (amended): when both the remote and the local embedding backends
raise errors, `embed` swallows them and always returns the deterministic
fallback: `[0]` when the trimmed input is empty, and otherwise the
L2-normalised token-frequency vector over the sorted vocabulary (which is
the empty vector when tokenisation yields no tokens). -/
theorem c7_embed_fallback : ∀ (mobile : Bool) (msg text : String),
    embed (erroringEnv mobile msg) text =
      if jsTrim text = "" then [0] else simpleFrequencyEmbedding (jsTrim text) := by
  intro mobile msg text
  cases mobile <;>
    by_cases h : jsTrim text = "" <;>
      simp [embed, erroringEnv, embedWithOpenAI, embedWithLocalTransformers, h]

/-- Counterexample for C7 as stated: the input `!` has no tokens after
normalisation, yet the fallback returns the empty vector, not the zero
vector of length 1; the `[0]` case is reached only for a whitespace-only
input. -/
theorem c7_embed_fallback_counterexample :
    embed (erroringEnv false "network failure") "!" = ([] : List ℝ) ∧
    embed (erroringEnv false "network failure") " " = [(0 : ℝ)] := by
  exact ⟨rfl, rfl⟩

/-- C2 (amended): when the tool-routing model always returns at least one
tool call, `run` executes exactly `maxSteps` (4) tool rounds — the step
ceiling forces the responding phase — and the returned text is non-empty
provided the assistant response text, the deep-research response text, or
the retrieved-result list is non-empty. -/
theorem c2_loop_termination (env : OrchestratorEnv) (query : String)
    (halways : ∀ i ms, (env.runToolCall i ms).toolCalls ≠ [])
    (hresp : (env.runAssistant query (buildContext env.searchResults)
        (runLoopResult env query).1).text ≠ "" ∨
      (env.runDeepResearch query (buildContext env.searchResults)
        (runLoopResult env query).1).text ≠ "" ∨
      env.searchResults ≠ []) :
    runRounds env query = maxSteps ∧ run env query ≠ "" := by
  constructor
  · exact runLoop_rounds_eq env halways maxSteps 0 _
  · unfold run
    by_cases hA : (env.runAssistant query (buildContext env.searchResults)
        (runLoopResult env query).1).text = ""
    · simp only [runLoopResult] at hA ⊢
      simp only [hA, if_pos rfl]
      apply applyCitations_ne_empty
      rcases hresp with h1 | h2 | h3
      · exact absurd (by simpa [runLoopResult] using hA) h1
      · exact Or.inl (by simpa [runLoopResult] using h2)
      · exact Or.inr h3
    · simp only [runLoopResult] at hA ⊢
      rw [if_neg hA]
      exact applyCitations_ne_empty _ _ (Or.inl hA)



theorem mem_insertScoreDesc {x y : VSResult} {l : List VSResult}
    (h : y ∈ insertScoreDesc x l) : y = x ∨ y ∈ l := by
  induction l with
  | nil => simpa [insertScoreDesc] using h
  | cons z zs ih =>
    unfold insertScoreDesc at h
    split at h
    · rcases List.mem_cons.mp h with h1 | h2
      · exact Or.inl h1
      · exact Or.inr h2
    · rcases List.mem_cons.mp h with h1 | h2
      · exact Or.inr (by simp [h1])
      · rcases ih h2 with h3 | h4
        · exact Or.inl h3
        · exact Or.inr (by simp [h4])

theorem mem_sortScoreDesc {y : VSResult} {l : List VSResult}
    (h : y ∈ sortScoreDesc l) : y ∈ l := by
  induction l with
  | nil => simpa [sortScoreDesc] using h
  | cons z zs ih =>
    unfold sortScoreDesc at h
    rcases mem_insertScoreDesc h with h1 | h2
    · simp [h1]
    · exact List.mem_cons_of_mem _ (ih h2)

theorem normalizeBy_nonneg (maxS x : ℚ) (h0 : 0 ≤ x) (hm : x ≤ maxS) :
    0 ≤ normalizeBy maxS x := by
  unfold normalizeBy
  split
  · exact le_refl 0
  · next hne =>
    have hpos : 0 < maxS := lt_of_le_of_ne (le_trans h0 hm) (Ne.symm hne)
    exact div_nonneg h0 (le_of_lt hpos)

theorem normalizeBy_le_one (maxS x : ℚ) (h0 : 0 ≤ x) (hm : x ≤ maxS) :
    normalizeBy maxS x ≤ 1 := by
  unfold normalizeBy
  split
  · exact zero_le_one
  · next hne =>
    have hpos : 0 < maxS := lt_of_le_of_ne (le_trans h0 hm) (Ne.symm hne)
    exact (div_le_one hpos).mpr hm

theorem weighted_bounds (w maxS x : ℚ) (hw : 0 ≤ w) (h0 : 0 ≤ x) (hm : x ≤ maxS) :
    0 ≤ normalizeBy maxS x * w ∧ normalizeBy maxS x * w ≤ w :=
  ⟨mul_nonneg (normalizeBy_nonneg maxS x h0 hm) hw,
   mul_le_of_le_one_left hw (normalizeBy_le_one maxS x h0 hm)⟩

theorem foldl_fuse1_bound (kw maxB : ℚ) (l : List VSResult)
    (hl : ∀ r ∈ l, 0 ≤ normalizeBy maxB r.score * kw ∧ normalizeBy maxB r.score * kw ≤ kw) :
    ∀ m : List (String × VSResult),
      (∀ p ∈ m, 0 ≤ p.2.score ∧ p.2.score ≤ kw) →
      ∀ p ∈ l.foldl (fuseStep1 kw maxB) m, 0 ≤ p.2.score ∧ p.2.score ≤ kw := by
  induction l with
  | nil => intro m hm p hp; exact hm p hp
  | cons r rest ih =>
    intro m hm p hp
    simp only [List.foldl_cons] at hp
    refine ih (fun q hq => hl q (by simp [hq])) _ ?_ p hp
    intro q hq
    rcases mem_jsMapSet hq with h1 | h2
    · rw [h1]
      exact hl r (by simp)
    · exact hm q h2

theorem fuseStep2_get_ne (vw maxV : ℚ) (m : List (String × VSResult)) (r : VSResult)
    (b : String) (h : b ≠ r.blockId) :
    jsMapGet (fuseStep2 vw maxV m r) b = jsMapGet m b := by
  unfold fuseStep2
  cases hg : jsMapGet m r.blockId with
  | none => simp [jsMapGet_set_ne _ _ _ _ h]
  | some ex => simp [jsMapGet_set_ne _ _ _ _ h]

theorem foldl_fuse2_bound (kw vw maxV : ℚ) (hkw : 0 ≤ kw) (l : List VSResult)
    (hl : ∀ r ∈ l, 0 ≤ normalizeBy maxV r.score * vw ∧ normalizeBy maxV r.score * vw ≤ vw)
    (hnodup : (l.map (·.blockId)).Nodup) :
    ∀ m : List (String × VSResult),
      (∀ p ∈ m, 0 ≤ p.2.score ∧ p.2.score ≤ kw + vw) →
      (∀ p ∈ m, p.1 ∈ l.map (·.blockId) → p.2.score ≤ kw) →
      ∀ p ∈ l.foldl (fuseStep2 vw maxV) m, 0 ≤ p.2.score ∧ p.2.score ≤ kw + vw := by
  induction l with
  | nil => intro m hA hB p hp; exact hA p hp
  | cons r rest ih =>
    intro m hA hB p hp
    simp only [List.foldl_cons] at hp
    have hw := hl r (by simp)
    have hrb : r.blockId ∉ rest.map (·.blockId) := by
      have := hnodup
      simp only [List.map_cons, List.nodup_cons] at this
      exact this.1
    have hA' : ∀ q ∈ fuseStep2 vw maxV m r, 0 ≤ q.2.score ∧ q.2.score ≤ kw + vw := by
      intro q hq
      unfold fuseStep2 at hq
      revert hq
      cases hg : jsMapGet m r.blockId with
      | some ex =>
        intro hq
        rcases mem_jsMapSet hq with h1 | h2
        · have hexm := jsMapGet_mem hg
          have hexA := hA _ hexm
          have hexB := hB _ hexm (by simp)
          rw [h1]
          constructor
          · exact add_nonneg hexA.1 hw.1
          · exact add_le_add hexB hw.2
        · exact hA q h2
      | none =>
        intro hq
        rcases mem_jsMapSet hq with h1 | h2
        · rw [h1]
          constructor
          · exact hw.1
          · calc normalizeBy maxV r.score * vw ≤ vw := hw.2
              _ ≤ kw + vw := le_add_of_nonneg_left hkw
        · exact hA q h2
    have hB' : ∀ q ∈ fuseStep2 vw maxV m r, q.1 ∈ rest.map (·.blockId) → q.2.score ≤ kw := by
      intro q hq hqmem
      unfold fuseStep2 at hq
      revert hq
      cases hg : jsMapGet m r.blockId with
      | some ex =>
        intro hq
        rcases mem_jsMapSet hq with h1 | h2
        · exfalso
          rw [h1] at hqmem
          exact hrb hqmem
        · exact hB q h2 (by simp [hqmem])
      | none =>
        intro hq
        rcases mem_jsMapSet hq with h1 | h2
        · exfalso
          rw [h1] at hqmem
          exact hrb hqmem
        · exact hB q h2 (by simp [hqmem])
    exact ih (fun q hq => hl q (by simp [hq]))
      (by simpa using hnodup.of_cons) _ hA' hB' p hp



theorem foldl_fuse1_get_not_mem (kw maxB : ℚ) (l : List VSResult)
    (m : List (String × VSResult)) (b : String) (h : b ∉ l.map (·.blockId)) :
    jsMapGet (l.foldl (fuseStep1 kw maxB) m) b = jsMapGet m b := by
  induction l generalizing m with
  | nil => rfl
  | cons r rest ih =>
    simp only [List.foldl_cons]
    rw [ih _ (fun hb => h (by simp [List.mem_cons] at hb ⊢; exact Or.inr hb))]
    unfold fuseStep1
    exact jsMapGet_set_ne _ _ _ _ (fun hb => h (by simp [hb]))

theorem foldl_fuse2_get_not_mem (vw maxV : ℚ) (l : List VSResult)
    (m : List (String × VSResult)) (b : String) (h : b ∉ l.map (·.blockId)) :
    jsMapGet (l.foldl (fuseStep2 vw maxV) m) b = jsMapGet m b := by
  induction l generalizing m with
  | nil => rfl
  | cons r rest ih =>
    simp only [List.foldl_cons]
    rw [ih _ (fun hb => h (by simp [List.mem_cons] at hb ⊢; exact Or.inr hb))]
    exact fuseStep2_get_ne vw maxV m r b (fun hb => h (by simp [hb]))

theorem foldl_fuse1_get_mem (kw maxB : ℚ) (l : List VSResult)
    (hnodup : (l.map (·.blockId)).Nodup) (rb : VSResult) (hrb : rb ∈ l) :
    ∀ m : List (String × VSResult),
      jsMapGet (l.foldl (fuseStep1 kw maxB) m) rb.blockId =
        some { rb with score := normalizeBy maxB rb.score * kw } := by
  induction l with
  | nil => simp at hrb
  | cons r rest ih =>
    intro m
    simp only [List.foldl_cons]
    have hhead : r.blockId ∉ rest.map (·.blockId) := by
      have := hnodup
      simp only [List.map_cons, List.nodup_cons] at this
      exact this.1
    by_cases hb : r.blockId = rb.blockId
    · have hreq : rb = r := by
        rcases List.mem_cons.mp hrb with h1 | h2
        · exact h1
        · exact absurd (hb ▸ List.mem_map.mpr ⟨rb, h2, rfl⟩) hhead
      subst hreq
      rw [foldl_fuse1_get_not_mem kw maxB rest _ _ hhead]
      unfold fuseStep1
      exact jsMapGet_set_self _ _ _
    · have hrest : rb ∈ rest := by
        rcases List.mem_cons.mp hrb with h1 | h2
        · exact absurd (congrArg VSResult.blockId h1).symm hb
        · exact h2
      rw [ih (by simpa using hnodup.of_cons) hrest]

theorem foldl_fuse2_get_mem (vw maxV : ℚ) (l : List VSResult)
    (hnodup : (l.map (·.blockId)).Nodup) (rv : VSResult) (hrv : rv ∈ l) :
    ∀ m : List (String × VSResult),
      jsMapGet (l.foldl (fuseStep2 vw maxV) m) rv.blockId =
        some (match jsMapGet m rv.blockId with
              | some ex => { ex with score := ex.score + normalizeBy maxV rv.score * vw }
              | none => { rv with score := normalizeBy maxV rv.score * vw }) := by
  induction l with
  | nil => simp at hrv
  | cons r rest ih =>
    intro m
    simp only [List.foldl_cons]
    have hhead : r.blockId ∉ rest.map (·.blockId) := by
      have := hnodup
      simp only [List.map_cons, List.nodup_cons] at this
      exact this.1
    by_cases hb : r.blockId = rv.blockId
    · have hreq : rv = r := by
        rcases List.mem_cons.mp hrv with h1 | h2
        · exact h1
        · exact absurd (hb ▸ List.mem_map.mpr ⟨rv, h2, rfl⟩) hhead
      subst hreq
      rw [foldl_fuse2_get_not_mem vw maxV rest _ _ hhead]
      unfold fuseStep2
      cases hg : jsMapGet m rv.blockId with
      | some ex => simp [hg, jsMapGet_set_self]
      | none => simp [hg, jsMapGet_set_self]
    · have hrest : rv ∈ rest := by
        rcases List.mem_cons.mp hrv with h1 | h2
        · exact absurd (congrArg VSResult.blockId h1).symm hb
        · exact h2
      rw [ih (by simpa using hnodup.of_cons) hrest]
      rw [fuseStep2_get_ne vw maxV m r rv.blockId (fun hh => hb hh.symm)]



/-- C1 (amended): for candidate lists as the backends produce them — sorted
with the head score maximal, non-negative scores, non-negative weights — and
containing at most one candidate per block identifier (the merge key), every
fused score of `search` lies in `[0, kw + vw]`, and a chunk present in both
lists receives a fused score at least its score from either list alone. -/
theorem c1_fusion_bounds (kw vw : ℚ) (limit : Nat) (bm25 vector : List VSResult)
    (hkw : 0 ≤ kw) (hvw : 0 ≤ vw)
    (_hbm_ne : bm25 ≠ []) (_hvec_ne : vector ≠ [])
    (hbm0 : ∀ r ∈ bm25, 0 ≤ r.score) (hvec0 : ∀ r ∈ vector, 0 ≤ r.score)
    (hbmMax : ∀ r ∈ bm25, r.score ≤ listMaxScore bm25)
    (hvecMax : ∀ r ∈ vector, r.score ≤ listMaxScore vector)
    (hbmN : (bm25.map (·.blockId)).Nodup) (hvecN : (vector.map (·.blockId)).Nodup) :
    (∀ r ∈ searchFuse kw vw limit bm25 vector, 0 ≤ r.score ∧ r.score ≤ kw + vw) ∧
    (∀ rb ∈ bm25, ∀ rv ∈ vector, rb.blockId = rv.blockId →
      ∃ q qk qv,
        fusedScoreOf kw vw bm25 vector rb.blockId = some q ∧
        fusedScoreOf kw vw bm25 (vector.filter (fun r => !(r.blockId == rb.blockId)))
          rb.blockId = some qk ∧
        fusedScoreOf kw vw (bm25.filter (fun r => !(r.blockId == rb.blockId))) vector
          rb.blockId = some qv ∧
        qk ≤ q ∧ qv ≤ q) := by
  have hwK : ∀ r ∈ bm25,
      0 ≤ normalizeBy (listMaxScore bm25) r.score * kw ∧
      normalizeBy (listMaxScore bm25) r.score * kw ≤ kw :=
    fun r hr => weighted_bounds kw _ _ hkw (hbm0 r hr) (hbmMax r hr)
  have hwV : ∀ r ∈ vector,
      0 ≤ normalizeBy (listMaxScore vector) r.score * vw ∧
      normalizeBy (listMaxScore vector) r.score * vw ≤ vw :=
    fun r hr => weighted_bounds vw _ _ hvw (hvec0 r hr) (hvecMax r hr)
  have hphase1 : ∀ p ∈ bm25.foldl (fuseStep1 kw (listMaxScore bm25)) [],
      0 ≤ p.2.score ∧ p.2.score ≤ kw :=
    foldl_fuse1_bound kw _ bm25 hwK [] (by simp)
  constructor
  · intro r hr
    simp only [searchFuse] at hr
    have hr1 : r ∈ (fuseCandidates kw vw bm25 vector).map (·.2) :=
      mem_sortScoreDesc (List.take_subset _ _ hr)
    rcases List.mem_map.mp hr1 with ⟨p, hp, hpr⟩
    have hb := foldl_fuse2_bound kw vw (listMaxScore vector) hkw vector hwV hvecN
      (bm25.foldl (fuseStep1 kw (listMaxScore bm25)) [])
      (fun q hq => ⟨(hphase1 q hq).1,
        le_trans (hphase1 q hq).2 (le_add_of_nonneg_right hvw)⟩)
      (fun q hq _ => (hphase1 q hq).2)
      p hp
    rw [← hpr]
    exact hb
  · intro rb hrb rv hrv heq
    have hkval := foldl_fuse1_get_mem kw (listMaxScore bm25) bm25 hbmN rb hrb
    refine ⟨normalizeBy (listMaxScore bm25) rb.score * kw +
        normalizeBy (listMaxScore vector) rv.score * vw,
      normalizeBy (listMaxScore bm25) rb.score * kw,
      normalizeBy (listMaxScore vector) rv.score * vw, ?_, ?_, ?_, ?_, ?_⟩
    · have h2 := foldl_fuse2_get_mem vw (listMaxScore vector) vector hvecN rv hrv
        (bm25.foldl (fuseStep1 kw (listMaxScore bm25)) [])
      have hc1 : jsMapGet (bm25.foldl (fuseStep1 kw (listMaxScore bm25)) []) rv.blockId =
          some { rb with score := normalizeBy (listMaxScore bm25) rb.score * kw } := by
        rw [← heq]
        exact hkval []
      unfold fusedScoreOf fuseCandidates
      rw [heq, h2, hc1]
      simp
    · unfold fusedScoreOf fuseCandidates
      have hnot : rb.blockId ∉
          (vector.filter (fun r => !(r.blockId == rb.blockId))).map (·.blockId) := by
        intro hmem
        rcases List.mem_map.mp hmem with ⟨r, hrmem, hrid⟩
        have := List.of_mem_filter hrmem
        rw [hrid] at this
        simp at this
      rw [foldl_fuse2_get_not_mem _ _ _ _ _ hnot, hkval]
      simp
    · have hnot : rb.blockId ∉
          (bm25.filter (fun r => !(r.blockId == rb.blockId))).map (·.blockId) := by
        intro hmem
        rcases List.mem_map.mp hmem with ⟨r, hrmem, hrid⟩
        have := List.of_mem_filter hrmem
        rw [hrid] at this
        simp at this
      have h2 := foldl_fuse2_get_mem vw (listMaxScore vector) vector hvecN rv hrv
        ((bm25.filter (fun r => !(r.blockId == rb.blockId))).foldl
          (fuseStep1 kw (listMaxScore (bm25.filter (fun r => !(r.blockId == rb.blockId))))) [])
      rw [← heq] at h2
      have hc1 : jsMapGet ((bm25.filter (fun r => !(r.blockId == rb.blockId))).foldl
          (fuseStep1 kw (listMaxScore (bm25.filter (fun r => !(r.blockId == rb.blockId))))) [])
          rb.blockId = none := by
        rw [foldl_fuse1_get_not_mem _ _ _ _ _ hnot]
        rfl
      unfold fusedScoreOf fuseCandidates
      rw [h2, hc1]
      simp
    · exact le_add_of_nonneg_right (hwV rv hrv).1
    · exact le_add_of_nonneg_left (hwK rb hrb).1




/-- Counterexample for C1 as stated: the block-id hash collides on the file
paths `Aa` and `BB`, so both candidate lists can hold two chunks with one
block identifier; the vector pass then adds its weighted score twice and the
fused score `29/20` exceeds `keywordWeight + vectorWeight = 1`. -/
theorem c1_fusion_bounds_counterexample :
    createBlockId "Aa" "Document" 0 = createBlockId "BB" "Document" 0 ∧
    keywordWeightOf {} + vectorWeightOf {} = 1 ∧
    search {} 6 collisionBm25 collisionVector =
      [⟨"hello world", "BB", "block-13f96c35", 29 / 20⟩] ∧
    (1 : ℚ) < 29 / 20 := by
  refine ⟨by decide, by norm_num [keywordWeightOf, vectorWeightOf], ?_, by norm_num⟩
  simp +decide only [search, searchFuse, fuseCandidates, fuseStep1, fuseStep2,
    collisionBm25, collisionVector,
    List.foldl_cons, List.foldl_nil, listMaxScore, keywordWeightOf, vectorWeightOf,
    jsMapSet, jsMapGet, List.find?, List.any_cons, List.any_nil, List.map_cons, List.map_nil,
    sortScoreDesc, insertScoreDesc, List.take, Option.map, Option.getD]
  norm_num [normalizeBy]

/-- Counterexample for C2 as stated: with a router that always requests a
tool call, both responding models returning empty text, and an empty index,
`run` performs its 4 rounds but returns the empty string. -/
theorem c2_loop_termination_counterexample :
    (emptyRespondEnv.runToolCall 0 []).toolCalls.length = 1 ∧
    runRounds emptyRespondEnv "What changed this week?" = maxSteps ∧
    run emptyRespondEnv "What changed this week?" = "" :=
  ⟨rfl, rfl, rfl⟩

/-- Witness for C2: in an always-tool-calling environment whose assistant
phase responds with text, `run` uses exactly 4 tool rounds and returns
non-empty text. -/
theorem c2_loop_termination_witness :
    runRounds respondingEnv "List my notes" = maxSteps ∧
    run respondingEnv "List my notes" ≠ "" :=
  c2_loop_termination respondingEnv "List my notes" (fun _ _ => List.cons_ne_nil _ _)
    (Or.inl (by decide))



/-- Witness for C1: concrete duplicate-free candidate lists satisfy the
bounds, and the chunk present in both lists dominates its single-list
scores. -/
theorem c1_fusion_bounds_witness :
    (∀ r ∈ searchFuse (11/20) (9/20) 6 fusionWitnessBm25 fusionWitnessVector,
        0 ≤ r.score ∧ r.score ≤ 11/20 + 9/20) ∧
    (∃ q qk qv,
        fusedScoreOf (11/20) (9/20) fusionWitnessBm25 fusionWitnessVector "block-a" = some q ∧
        fusedScoreOf (11/20) (9/20) fusionWitnessBm25
          (fusionWitnessVector.filter (fun r => !(r.blockId == "block-a"))) "block-a" = some qk ∧
        fusedScoreOf (11/20) (9/20)
          (fusionWitnessBm25.filter (fun r => !(r.blockId == "block-a")))
          fusionWitnessVector "block-a" = some qv ∧
        qk ≤ q ∧ qv ≤ q) := by
  have h := c1_fusion_bounds (11/20) (9/20) 6 fusionWitnessBm25 fusionWitnessVector
    (by norm_num) (by norm_num) (by decide) (by decide) (by decide) (by decide)
    (by decide) (by decide) (by decide) (by decide)
  exact ⟨h.1, h.2 ⟨"alpha", "A.md", "block-a", 2⟩ (by decide)
    ⟨"alpha", "A.md", "block-a", 1⟩ (by decide) rfl⟩

/-- Witness for C4: round trip of a concrete one-chunk store. -/
theorem c4_roundtrip_persistence_witness :
    (roundTripStore.bindings.map (·.1)).Nodup ∧ roundTripStore.bindings ≠ [] ∧
    (restoreFromPayload (persistPayload roundTripStore)).bindings = roundTripStore.bindings ∧
    (restoreFromPayload (persistPayload roundTripStore)).cachedChunks =
      roundTripStore.cachedChunks := by
  have h := c4_roundtrip_persistence roundTripStore (by decide) (by decide)
    (by
      intro p hp
      simp only [roundTripStore, List.mem_singleton] at hp
      subst hp
      rfl)
    (Or.inl (by decide))
  exact ⟨by decide, by decide, h.1, h.2⟩

/-- Witness for C5: indexing `a.md` with body `hello` in the empty store and
removing it deletes its binding and its chunk. -/
theorem c5_binding_consistency_witness :
    "a.md::block-5c61e0b9" ∈ bindingIds (indexFile {} emptyStore "a.md" "hello") "a.md" ∧
    jsMapGet (removeFile (indexFile {} emptyStore "a.md" "hello") "a.md").bindings "a.md" = none ∧
    jsMapGet (removeFile (indexFile {} emptyStore "a.md" "hello") "a.md").cachedChunks
      "a.md::block-5c61e0b9" = none := by
  have h := c5_binding_consistency {} emptyStore "a.md" "hello"
  have hmem : "a.md::block-5c61e0b9" ∈
      bindingIds (indexFile {} emptyStore "a.md" "hello") "a.md" := by decide
  exact ⟨hmem, h.1, (h.2 _ hmem).1⟩

/-- Witness for C6: renaming `old.md` with one bound chunk to `new.md`. -/
theorem c6_rename_rebinding_witness :
    jsMapGet renameStore.bindings "old.md" = some ["old.md::block-1"] ∧
    "old.md" ≠ "new.md" ∧
    jsMapGet (renameFile renameStore "old.md" "new.md").bindings "old.md" = none ∧
    jsMapGet (renameFile renameStore "old.md" "new.md").bindings "new.md" =
      some ["old.md::block-1"] ∧
    jsMapGet (renameFile renameStore "old.md" "new.md").cachedChunks "old.md::block-1" =
      (jsMapGet renameStore.cachedChunks "old.md::block-1").map (rewritePath "new.md") := by
  have h := c6_rename_rebinding renameStore "old.md" "new.md" ["old.md::block-1"] (by decide) (by decide)
  exact ⟨by decide, by decide, h.1, h.2.1, h.2.2 _ (by decide)⟩

/-- Witness for C10: renaming a path that is unbound in the empty store is a
no-op. -/
theorem c10_rename_unbound_noop_witness :
    jsMapGet emptyStore.bindings "missing.md" = none ∧
    renameFile emptyStore "missing.md" "elsewhere.md" = emptyStore :=
  ⟨rfl, c10_rename_unbound_noop emptyStore "missing.md" "elsewhere.md" rfl⟩

/-- Witness for C8: a self-cited text is untouched, and a markerless text
with one retrieved result gains the synthesised `Sources:` line. -/
theorem c8_citation_postprocessing_witness :
    (containsSub "see [[A.md#^block-1]]" "[[" = true ∧
      applyCitations "see [[A.md#^block-1]]" [⟨"alpha", "A.md", "block-1", 1⟩] =
        "see [[A.md#^block-1]]") ∧
    (containsSub "plain answer" "[[" = false ∧
      ([⟨"alpha", "A.md", "block-1", 1⟩] : List ISearchResult) ≠ [] ∧
      applyCitations "plain answer" [⟨"alpha", "A.md", "block-1", 1⟩] =
        "plain answer" ++ "\n\nSources: " ++
          String.intercalate " "
            ((([⟨"alpha", "A.md", "block-1", 1⟩] : List ISearchResult).take 5).map
              citationMarker)) := by
  refine ⟨⟨by decide, (c8_citation_postprocessing _ _).1 (by decide)⟩,
    ⟨by decide, ?_, (c8_citation_postprocessing _ _).2 (by decide) ?_⟩⟩ <;>
    exact fun hcon => List.cons_ne_nil _ _ hcon

end ObsidianCortex
